import Mathlib

open scoped Matrix

/-!
Verification of the idle-tomography core (`pygsti/extras/idletomography/idtcore.py`)
against its natural-language specification.

The Python module represents N-qubit Pauli data as strings: one letter per qubit
(`'I'`, `'X'`, `'Y'`, `'Z'`), a parallel list of signs (integers `+1`/`-1`) for
prep/measurement bases, and outcomes as strings of `'0'`/`'1'` characters.

The shallow embedding below mirrors that representation:
  * a basis letter of a `NQPauliState` (always in `{X,Y,Z}`) is a `PauliBasis`;
  * an error/observable letter (in `{I,X,Y,Z}`) is a `Pauli`;
  * signs are `Int` (the code only ever constructs `+1`/`-1`);
  * an outcome bit is a `Bool` (`false` = `'0'`, `true` = `'1'`);
  * Python `assert` failures and `raise` statements become `Option`/`Except`
    error results;
  * Python's `zip` truncation semantics are kept by recursing on all the zipped
    lists at once and stopping as soon as any of them is empty.
-/

/-- Basis letter of an `NQPauliState` (the code asserts these are never `'I'`). -/
inductive PauliBasis : Type
  | X | Y | Z
deriving DecidableEq, Repr

/-- A letter of an N-qubit Pauli operator (error generators, observables). -/
inductive Pauli : Type
  | I | X | Y | Z
deriving DecidableEq, Repr

/-- The inclusion of basis letters into Pauli letters (a basis letter used where
the code compares it against an error letter, e.g. `measBasis != errP`). -/
def PauliBasis.toPauli : PauliBasis → Pauli
  | .X => .X
  | .Y => .Y
  | .Z => .Z

/-- `NQPauliState` from `pauliobjs.py`: an N-letter Pauli basis string `rep`
together with a parallel list of `+1`/`-1` signs. -/
structure NQPauliState : Type where
  rep : List PauliBasis
  signs : List Int
deriving DecidableEq, Repr

/-- `NQPauliOp`'s string of letters (errors and observables). -/
abbrev NQPauliOp : Type := List Pauli

/-- `NQOutcome`'s bit string: `false` = `'0'`, `true` = `'1'`. -/
abbrev NQOutcome : Type := List Bool

/-- Modelled from the spec: `pauliobjs._commute_parity` ("pairwise
commute/anticommute test returning a fixed parity value", spec section 6; the file
`pauliobjs.py` is not part of the sources).  Two single-qubit Paulis commute
(parity `1`) exactly when they are equal or either is the identity, and
anticommute (parity `-1`) otherwise; here the first argument is a basis letter,
hence never `I`. -/
def commute_parity (P : PauliBasis) (err : Pauli) : Int :=
  if err = Pauli.I ∨ err = P.toPauli then 1 else -1

/-! ### `stochastic_outcome` (idtcore.py lines 43-76) -/

/-- One loop iteration of `stochastic_outcome`: given this qubit's prep sign
`s1`, prep basis `P1`, meas sign `s2`, meas basis `P2` and error letter `err`,
produce the outcome bit.  The `assert(P1 == P2)` is modelled as `none`.
Commuting basis: bit `'0'` iff `s1 == s2`; anticommuting: the rule inverts. -/
def stochastic_outcome_bit (s1 : Int) (P1 : PauliBasis) (s2 : Int)
    (P2 : PauliBasis) (err : Pauli) : Option Bool :=
  if P1 = P2 then
    some (if commute_parity P1 err = 1 then decide (s1 ≠ s2) else decide (s1 = s2))
  else
    none

/-- The `for ... in zip(prep.signs, prep.rep, meas.signs, meas.rep, error.rep)`
loop of `stochastic_outcome`, accumulating the outcome string. -/
def stochastic_outcome_aux : List Int → List PauliBasis → List Int →
    List PauliBasis → List Pauli → Option (List Bool)
  | s1 :: ss1, p1 :: ps1, s2 :: ss2, p2 :: ps2, e :: es => do
      let b ← stochastic_outcome_bit s1 p1 s2 p2 e
      let rest ← stochastic_outcome_aux ss1 ps1 ss2 ps2 es
      pure (b :: rest)
  | _, _, _, _, _ => some []

/-- `stochastic_outcome(prep, error, meas)`: the N-bit outcome when basis
`prep` is prepared, error `error` occurs, and basis `meas` is measured. -/
def stochastic_outcome (prep : NQPauliState) (error : NQPauliOp)
    (meas : NQPauliState) : Option NQOutcome :=
  stochastic_outcome_aux prep.signs prep.rep meas.signs meas.rep error

/-- `stochastic_jac_element(prep, error, meas, outcome)`: indicator that the
stochastic error deterministically causes exactly the outcome `outcome`. -/
def stochastic_jac_element (prep : NQPauliState) (error : NQPauliOp)
    (meas : NQPauliState) (outcome : NQOutcome) : Option Int := do
  let out ← stochastic_outcome prep error meas
  pure (if out = outcome then 1 else 0)

/-! ### `affine_jac_element` (idtcore.py lines 96-150) -/

/-- `_affhelper` inside `affine_jac_element`.  The asserts
(`prepBasis`/`measBasis` in `{X,Y,Z}` and `prepBasis == measBasis`) are the
typing of `PauliBasis` plus the `none` branch.  `outsign` is `+1` for outcome
bit `'0'` and `-1` for `'1'`. -/
def affhelper (s1 : Int) (P1 : PauliBasis) (err : Pauli) (s2 : Int)
    (P2 : PauliBasis) (b : Bool) : Option Int :=
  if P1 = P2 then
    let outsign : Int := if b = false then 1 else -1
    some (if err = Pauli.I then
            (if s1 * s2 * outsign = 1 then 1 else 0)
          else if P2.toPauli ≠ err then 0
          else if b = false then s2 else s2 * (-1))
  else
    none

/-- The `zip` + `np.prod` of `affine_jac_element`: multiply the per-qubit
helper values, stopping when any zipped list runs out. -/
def affine_jac_aux : List Int → List PauliBasis → List Int → List PauliBasis →
    List Pauli → List Bool → Option Int
  | s1 :: ss1, p1 :: ps1, s2 :: ss2, p2 :: ps2, e :: es, b :: bs => do
      let v ← affhelper s1 p1 e s2 p2 b
      let rest ← affine_jac_aux ss1 ps1 ss2 ps2 es bs
      pure (v * rest)
  | _, _, _, _, _, _ => some 1

/-- `affine_jac_element(prep, error, meas, outcome)`: product over qubits of
the per-qubit helper. -/
def affine_jac_element (prep : NQPauliState) (error : NQPauliOp)
    (meas : NQPauliState) (outcome : NQOutcome) : Option Int :=
  affine_jac_aux prep.signs prep.rep meas.signs meas.rep error outcome

/-! ### `idle_tomography_fidpairs` (idtcore.py lines 212-291) -/

/-- A fiducial pair: `(prep, meas)` `NQPauliState`s. -/
abbrev FidPair : Type := NQPauliState × NQPauliState

/-- A Python `for`-loop building a list, whose body may `raise`: map `f` over
the list, stopping at the first error. -/
def raisingMap {α β : Type} (f : α → Except String β) : List α → Except String (List β)
  | [] => Except.ok []
  | a :: as => do
      let b ← f a
      let bs ← raisingMap f as
      pure (b :: bs)

/-- A Python list comprehension whose body may fail an `assert`: map `f` over
the list, stopping at the first assertion failure. -/
def assertingMap {α β : Type} (f : α → Option β) : List α → Option (List β)
  | [] => some []
  | a :: as => do
      let b ← f a
      let bs ← assertingMap f as
      pure (b :: bs)

/-- `itertools.product(('X','Y','Z'), repeat=maxweight)`: all basis-letter
tuples, last position varying fastest. -/
def basisTuples : ℕ → List (List PauliBasis)
  | 0 => [[]]
  | n + 1 =>
      [PauliBasis.X, PauliBasis.Y, PauliBasis.Z].flatMap
        (fun l => (basisTuples n).map (fun rest => l :: rest))

/-- The `flips` selection in the stochastic block of `idle_tomography_fidpairs`
(lines 230-246): with affine, maxweight 1 gives the two patterns, maxweight 2
three of the four, anything else raises `NotImplementedError`; without affine a
single all-ones (no-flip) pattern. -/
def sto_flips (maxweight : ℕ) (include_affine : Bool) :
    Except String (List (List Int)) :=
  if include_affine then
    if maxweight = 1 then Except.ok [[1], [-1]]
    else if maxweight = 2 then Except.ok [[1, 1], [1, -1], [-1, 1]]
    else Except.error
      "NotImplementedError: No implementation for affine errors and maxweight > 2!"
  else Except.ok [List.replicate maxweight 1]

/-- `conv = lambda x: 1 if x=="+" else -1` applied to a preferred-sign entry
(`true` = `"+"`). -/
def conv_sign (plus : Bool) : Int := if plus then 1 else -1

/-- The `base_prep_signs`/`base_meas_signs` dictionaries built from a
preferred-sign triple `(sX, sY, sZ)`. -/
def base_signs (sX sY sZ : Bool) : PauliBasis → Int
  | .X => conv_sign sX
  | .Y => conv_sign sY
  | .Z => conv_sign sZ

/-- The `sto_tmpl_pairs` accumulation (lines 250-260): for each flip pattern
and each basis-letter tuple, one template pair whose prep/meas signs are the
flip pattern times the preferred signs. -/
def sto_tmpl_pairs (maxweight : ℕ) (include_affine : Bool)
    (base_prep_signs base_meas_signs : PauliBasis → Int) :
    Except String (List FidPair) := do
  let flips ← sto_flips maxweight include_affine
  pure (flips.flatMap (fun fliptup =>
    (basisTuples maxweight).map (fun basisLets =>
      (⟨basisLets, (fliptup.zip basisLets).map
          (fun fl => fl.1 * base_prep_signs fl.2)⟩,
       ⟨basisLets, (fliptup.zip basisLets).map
          (fun fl => fl.1 * base_meas_signs fl.2)⟩))))

/-- `nextPauli = {"X":"Y","Y":"Z","Z":"X"}` (cyclic successor). -/
def nextPauli : PauliBasis → PauliBasis
  | .X => .Y
  | .Y => .Z
  | .Z => .X

/-- `prevPauli = {"X":"Z","Y":"X","Z":"Y"}` (cyclic predecessor). -/
def prevPauli : PauliBasis → PauliBasis
  | .X => .Z
  | .Y => .X
  | .Z => .Y

/-- The Hamiltonian template-pair loop (lines 275-287): every template string
must have length `maxweight` (assert), prep letters are the cyclic
predecessors, meas letters the cyclic successors, signs are the preferred
signs of the respective letters. -/
def ham_tmpl_pairs (maxweight : ℕ) (ham_tmpl : List (List PauliBasis))
    (base_prep_signs base_meas_signs : PauliBasis → Int) :
    Except String (List FidPair) :=
  raisingMap (fun tmplLets =>
    if tmplLets.length = maxweight then
      let prepLets := tmplLets.map prevPauli
      let measLets := tmplLets.map nextPauli
      Except.ok ((⟨prepLets, prepLets.map base_prep_signs⟩ : NQPauliState),
                 (⟨measLets, measLets.map base_meas_signs⟩ : NQPauliState))
    else Except.error
      "Hamiltonian template strings must have length == maxweight!") ham_tmpl

/-- `idle_tomography_fidpairs` (lines 212-291).  The external tiling
collaborator `idttools.tile_pauli_fidpairs` is not part of the sources and is
taken as the parameter `tile`.  Stochastic/affine pairs come first, then
Hamiltonian pairs; affine without stochastic raises `ValueError` before any
pair is produced. -/
def idle_tomography_fidpairs
    (tile : List FidPair → ℕ → ℕ → List FidPair)
    (nQubits maxweight : ℕ)
    (include_hamiltonian include_stochastic include_affine : Bool)
    (ham_tmpl : List (List PauliBasis))
    (base_prep_signs base_meas_signs : PauliBasis → Int) :
    Except String (List FidPair) := do
  let sto_part ←
    if include_stochastic then do
      let pairs ← sto_tmpl_pairs maxweight include_affine
                    base_prep_signs base_meas_signs
      pure (tile pairs nQubits maxweight)
    else if include_affine then
      Except.error
        "Cannot include affine sequences without also including stochastic ones!"
    else pure []
  let ham_part ←
    if include_hamiltonian then do
      let pairs ← ham_tmpl_pairs maxweight ham_tmpl
                    base_prep_signs base_meas_signs
      pure (tile pairs nQubits maxweight)
    else pure []
  pure (sto_part ++ ham_part)

/-! ### Fit-coefficient-to-rate step (idtcore.py lines 452-459 and 527-537) -/

/-- The `coeffs`-to-`slope` step of `get_obs_stochastic_err_rate` (lines
452-459).  `coeffs` is `np.polyfit`'s coefficient list, highest degree first
(for order 2: `[c2, c1, c0]` with fit `c2*x^2 + c1*x + c0`).  Python floats are
idealized as real numbers, whence `noncomputable` (`np.sqrt`, `np.sign`). -/
noncomputable def sto_slope_from_fit (fitOrder : ℕ) (coeffs : List ℝ) :
    Except String ℝ :=
  if fitOrder = 1 then Except.ok (coeffs.getD 0 0)
  else if fitOrder = 2 then
    Except.ok
      (if coeffs.getD 1 0 ^ 2 - 4 * coeffs.getD 2 0 * coeffs.getD 0 0 ≥ 0 then
        -(Real.sign (coeffs.getD 0 0)) *
          Real.sqrt (coeffs.getD 1 0 ^ 2 - 4 * coeffs.getD 2 0 * coeffs.getD 0 0)
      else coeffs.getD 1 0)
  else Except.error "NotImplementedError: Only fitOrder <= 2 are supported!"

/-- The identical `coeffs`-to-`slope` step of `get_obs_hamiltonian_err_rate`
(lines 527-537). -/
noncomputable def ham_slope_from_fit (fitOrder : ℕ) (coeffs : List ℝ) :
    Except String ℝ :=
  if fitOrder = 1 then Except.ok (coeffs.getD 0 0)
  else if fitOrder = 2 then
    Except.ok
      (if coeffs.getD 1 0 ^ 2 - 4 * coeffs.getD 2 0 * coeffs.getD 0 0 ≥ 0 then
        -(Real.sign (coeffs.getD 0 0)) *
          Real.sqrt (coeffs.getD 1 0 ^ 2 - 4 * coeffs.getD 2 0 * coeffs.getD 0 0)
      else coeffs.getD 1 0)
  else Except.error "NotImplementedError: Only fitOrder <= 2 are supported!"

/-! ### `get_obs_hamiltonian_err_rate` expectation computation (lines 483-524) -/

/-- The `enumerate`-and-filter loop underlying `obs_indices` (line 483),
carrying the running index `k`. -/
def obs_indices_from (k : ℕ) : NQPauliOp → List ℕ
  | [] => []
  | l :: ls =>
      if l ≠ Pauli.I then k :: obs_indices_from (k + 1) ls
      else obs_indices_from (k + 1) ls

/-- `obs_indices = [i for i,letter in enumerate(observable.rep) if letter != 'I']`
(line 483). -/
def obs_indices (observable : NQPauliOp) : List ℕ :=
  obs_indices_from 0 observable

/-- `unsigned_exptn_and_weight` (lines 487-515).  A dataset row is its outcome
counts (`counts`, outcome ↦ integer count) plus its `total`.  Returns the
pair `(exptn, fp)`; the fit weight `sqrt(total)/sqrt(fp*(1-fp))` is the
irrational image of this data and is not needed by any claim.  Observables of
weight other than 1 or 2 raise `NotImplementedError`. -/
def unsigned_exptn_and_weight (counts : List (NQOutcome × ℕ)) (total : ℕ)
    (observed_indices : List ℕ) : Except String (ℚ × ℚ) :=
  match observed_indices with
  | [i] =>
      let cnt0 := ((counts.filter (fun oc => oc.1.getD i false = false)).map
        (fun oc => oc.2)).sum
      let cnt1 := ((counts.filter (fun oc => oc.1.getD i false = true)).map
        (fun oc => oc.2)).sum
      Except.ok (((cnt0 : ℚ) - (cnt1 : ℚ)) / (total : ℚ),
        1/2 + 1/2 * ((cnt0 : ℚ) - (cnt1 : ℚ) + 1) / ((total : ℚ) + 2))
  | [i, j] =>
      let cnt_even := ((counts.filter
        (fun oc => oc.1.getD i false = oc.1.getD j false)).map
        (fun oc => oc.2)).sum
      let cnt_odd := ((counts.filter
        (fun oc => oc.1.getD i false ≠ oc.1.getD j false)).map
        (fun oc => oc.2)).sum
      Except.ok (((cnt_even : ℚ) - (cnt_odd : ℚ)) / (total : ℚ),
        1/2 + 1/2 * ((cnt_even : ℚ) - (cnt_odd : ℚ) + 1) / ((total : ℚ) + 2))
  | _ => Except.error
      "NotImplementedError: Expectation values of weight > 2 observables are not implemented!"

/-- The data-gathering loop of `get_obs_hamiltonian_err_rate` (lines 483-524):
`minus_sign` is the product of the measurement signs over the observable's
non-`'I'` qubits; for each circuit length the signed expectation value is
collected.  The dataset is abstracted as the list of `(counts, total)` rows
for the successive circuit lengths `maxLengths`. -/
def ham_data_to_fit (rows : List (List (NQOutcome × ℕ) × ℕ))
    (pauli_meas : NQPauliState) (observable : NQPauliOp) :
    Except String (List ℚ) :=
  let inds := obs_indices observable
  let minus_sign : Int := (inds.map (fun i => pauli_meas.signs.getD i 1)).prod
  raisingMap (fun rt =>
    (unsigned_exptn_and_weight rt.1 rt.2 inds).map
      (fun ew => (minus_sign : ℚ) * ew.1)) rows

/-! ### Module import environment and the rank-deficiency check
(idtcore.py lines 1-15, 669-673, 798-801, 848-851) -/

/-- The module-level names bound by the import statements at the top of
idtcore.py (lines 4-15).  Note `_warnings` is not among them: the module never
imports the `warnings` module. -/
def idtcore_imported_names : List String :=
  ["_np", "_itertools", "_time", "_collections", "_objs", "_tools",
   "_VerbosityPrinter", "_pobjs", "_idttools", "_IdleTomographyResults"]

/-- Python semantics of the rank-deficiency check appearing (identically, up to
the warning text `site`) at the three inversion sites (lines 669-673, 798-801,
848-851): `if rank < J.shape[1]: _warnings.warn(...)`.  Evaluating the global
name `_warnings` succeeds only if it is bound in the module namespace;
otherwise Python raises a `NameError`, aborting the run instead of warning. -/
def rank_check_step (site : String) (rank cols : ℕ) : Except String Unit :=
  if rank < cols then
    if idtcore_imported_names.contains "_warnings" then Except.ok ()
    else Except.error ("NameError: name _warnings is not defined [" ++ site ++ "]")
  else Except.ok ()

/-! ### Stage structure of `do_idle_tomography` (lines 594, 705-706, 708) -/

/-- The stage control flow of `do_idle_tomography`: the stochastic/affine stage
runs iff `extract_stochastic`; requesting affine without stochastic raises
`ValueError` (line 705-706) before any stage has produced anything; the
Hamiltonian stage runs iff `extract_hamiltonian`.  Returns the list of stages
run, in program order; an error result carries no partial stage list. -/
def do_idle_tomography_stages
    (extract_hamiltonian extract_stochastic extract_affine : Bool) :
    Except String (List String) := do
  let sto_stage ←
    if extract_stochastic then pure ["stochastic/affine"]
    else if extract_affine then
      Except.error
        "Cannot extract affine error rates without also extracting stochastic ones!"
    else pure []
  let ham_stage := if extract_hamiltonian then ["hamiltonian"] else []
  pure (sto_stage ++ ham_stage)

/-! ### Stochastic-stage Jacobian rows and the result split
(idtcore.py lines 627-632, 680-684) -/

/-- One stochastic-stage Jacobian row (lines 627-632): the stochastic elements
for all enumerated errors, then — when affine extraction is requested — the
affine elements for the same errors in the same enumeration order. -/
def sto_stage_Jrow (errors : List NQPauliOp) (extract_affine : Bool)
    (prep meas : NQPauliState) (out : NQOutcome) : Option (List Int) := do
  let sto ← assertingMap (fun err => stochastic_jac_element prep err meas out) errors
  let aff ←
    if extract_affine then
      assertingMap (fun err => affine_jac_element prep err meas out) errors
    else pure []
  pure (sto ++ aff)

/-- The split of the combined stochastic/affine intrinsic-rate vector (lines
682-684): `Nrates = len(v)`; stochastic rates are `v[0:Nrates//2]`, affine
rates are `v[Nrates//2:]`. -/
def split_sto_aff (v : List ℚ) : List ℚ × List ℚ :=
  (v.take (v.length / 2), v.drop (v.length / 2))

/-! ### Coordinator inversion steps (idtcore.py lines 658-703, 773-822, 824-864)

The observed-rate vectors and gathered Jacobian matrices are exact rational
idealizations of the floating-point arrays; `np.linalg.pinv` on a matrix `J`
of full column rank equals `(Jᵀ J)⁻¹ Jᵀ`, which is what the claims about the
inversion sites presuppose (they carry full-column-rank hypotheses, under
which the rank-deficiency branch of the code — see `rank_check_step` — is not
taken).  Column blocks produced by `np.concatenate`/array slicing over
contiguous index ranges are represented by `Sum`-indexed block matrices: the
left summand is the lower index range. -/

/-- Nonsingular matrix inverse, `det⁻¹ • adjugate` (executable form of
Mathlib's `Matrix.inv`, see `matInv_eq_inv` below). -/
def matInv {n : Type} [Fintype n] [DecidableEq n] (M : Matrix n n ℚ) :
    Matrix n n ℚ :=
  (M.det)⁻¹ • M.adjugate

/-- `np.linalg.pinv J` for `J` of full column rank: `(Jᵀ J)⁻¹ Jᵀ`. -/
def pinv {m n : Type} [Fintype m] [Fintype n] [DecidableEq n]
    (J : Matrix m n ℚ) : Matrix n m ℚ :=
  matInv (Jᵀ * J) * Jᵀ

/-- Horizontal concatenation of column blocks (the matrix-level form of the
per-row `Jrow.extend` at lines 629-631 and of the `np.concatenate((J,Jaff),
axis=1)` at line 815). -/
def hstack {r n n' : Type} (S : Matrix r n ℚ) (A : Matrix r n' ℚ) :
    Matrix r (n ⊕ n') ℚ :=
  Matrix.of (fun i => Sum.elim (S i) (A i))

/-- Separate-mode stage-1 inversion with affine requested (lines 668-684):
pseudo-invert the stochastic/affine design matrix `[S | A]`, multiply by the
observed rates, and split the combined vector into its stochastic (first
block) and affine (second block) halves. -/
def separate_sto_aff {r1 n : Type} [Fintype r1] [Fintype n] [DecidableEq n]
    (S A : Matrix r1 n ℚ) (b1 : r1 → ℚ) : (n → ℚ) × (n → ℚ) :=
  let x := pinv (hstack S A) *ᵥ b1
  (x ∘ Sum.inl, x ∘ Sum.inr)

/-- Separate-mode Hamiltonian inversion with affine requested (lines 783-803):
subtract the predicted affine contribution `Jaff · Aintrinsic` from the
observed rates, then pseudo-invert the Hamiltonian design matrix. -/
def separate_ham {r2 n : Type} [Fintype r2] [Fintype n] [DecidableEq n]
    (H F : Matrix r2 n ℚ) (b2 : r2 → ℚ) (aff : n → ℚ) : n → ℚ :=
  pinv H *ᵥ (b2 - F *ᵥ aff)

/-- Separate-mode pipeline with all three error classes requested:
stage 1 yields (stochastic, affine), stage 2 the corrected Hamiltonian rates.
Returned as (hamiltonian, stochastic, affine). -/
def separate_mode_rates {r1 r2 n : Type} [Fintype r1] [Fintype r2] [Fintype n]
    [DecidableEq n] (S A : Matrix r1 n ℚ) (H F : Matrix r2 n ℚ)
    (b1 : r1 → ℚ) (b2 : r2 → ℚ) : (n → ℚ) × (n → ℚ) × (n → ℚ) :=
  let sa := separate_sto_aff S A b1
  (separate_ham H F b2 sa.2, sa.1, sa.2)

/-- Together-mode joint matrix with all three classes requested (lines
826-846): stochastic-stage rows on top (`Jbig[0:r1, sto_off:] = [S | A]`),
Hamiltonian-stage rows below (`Jbig[r1:, 0:sto_off] = H`,
`Jbig[r1:, sto_off+n:sto_off+2n] = F`); columns are the Hamiltonian block,
then the stochastic block, then the affine block. -/
def together_Jbig {r1 r2 n : Type} (S A : Matrix r1 n ℚ)
    (H F : Matrix r2 n ℚ) : Matrix (r1 ⊕ r2) (n ⊕ (n ⊕ n)) ℚ :=
  Matrix.fromBlocks 0 (hstack S A) H (hstack 0 F)

/-- Together-mode joint inversion with all three classes requested (lines
848-864): pseudo-invert `Jbig`, multiply by the concatenated observed rates,
slice back into (hamiltonian, stochastic, affine) in fixed column order. -/
def together_mode_rates {r1 r2 n : Type} [Fintype r1] [Fintype r2] [Fintype n]
    [DecidableEq n] (S A : Matrix r1 n ℚ) (H F : Matrix r2 n ℚ)
    (b1 : r1 → ℚ) (b2 : r2 → ℚ) : (n → ℚ) × (n → ℚ) × (n → ℚ) :=
  let x := pinv (together_Jbig S A H F) *ᵥ Sum.elim b1 b2
  (x ∘ Sum.inl, x ∘ (Sum.inr ∘ Sum.inl), x ∘ (Sum.inr ∘ Sum.inr))

/-- Separate-mode pipeline with affine not requested: the stochastic rates are
`pinv(S)·b1` (lines 694-695) and the Hamiltonian rates `pinv(H)·b2` with no
affine correction (lines 798-811).  Returned as (hamiltonian, stochastic). -/
def separate_mode_rates_no_affine {r1 r2 n : Type} [Fintype r1] [Fintype r2]
    [Fintype n] [DecidableEq n] (S : Matrix r1 n ℚ) (H : Matrix r2 n ℚ)
    (b1 : r1 → ℚ) (b2 : r2 → ℚ) : (n → ℚ) × (n → ℚ) :=
  (pinv H *ᵥ b2, pinv S *ᵥ b1)

/-- Together-mode joint matrix with affine not requested (lines 826-844):
`Jbig[0:r1, sto_off:] = S`, `Jbig[r1:, 0:sto_off] = H`. -/
def together_Jbig_no_affine {r1 r2 n : Type} (S : Matrix r1 n ℚ)
    (H : Matrix r2 n ℚ) : Matrix (r1 ⊕ r2) (n ⊕ n) ℚ :=
  Matrix.fromBlocks 0 S H 0

/-- Together-mode joint inversion with affine not requested, sliced back into
(hamiltonian, stochastic). -/
def together_mode_rates_no_affine {r1 r2 n : Type} [Fintype r1] [Fintype r2]
    [Fintype n] [DecidableEq n] (S : Matrix r1 n ℚ) (H : Matrix r2 n ℚ)
    (b1 : r1 → ℚ) (b2 : r2 → ℚ) : (n → ℚ) × (n → ℚ) :=
  let x := pinv (together_Jbig_no_affine S H) *ᵥ Sum.elim b1 b2
  (x ∘ Sum.inl, x ∘ Sum.inr)

/-! ### A concrete full-column-rank instance where the two jacobian modes
disagree (one intrinsic-rate column per class, two rows per stage). -/

/-- Stochastic column block of the stochastic-stage design matrix. -/
def cS : Matrix (Fin 2) (Fin 1) ℚ := !![1; 1]

/-- Affine column block of the stochastic-stage design matrix. -/
def cA : Matrix (Fin 2) (Fin 1) ℚ := !![1; -1]

/-- Hamiltonian design matrix of the Hamiltonian stage. -/
def cH : Matrix (Fin 2) (Fin 1) ℚ := !![1; 1]

/-- Affine-observable Jacobian of the Hamiltonian stage. -/
def cF : Matrix (Fin 2) (Fin 1) ℚ := !![1; 0]

/-- Observed stochastic-stage rates. -/
def cb1 : Fin 2 → ℚ := ![1, 0]

/-- Observed Hamiltonian-stage rates. -/
def cb2 : Fin 2 → ℚ := ![1, 0]

/-- Explicit inverse of `[cS | cA]ᵀ [cS | cA]` (full-column-rank certificate). -/
def cGsa_inv : Matrix (Fin 1 ⊕ Fin 1) (Fin 1 ⊕ Fin 1) ℚ :=
  Matrix.fromBlocks !![1/2] 0 0 !![1/2]

/-- Explicit inverse of `cHᵀ cH`. -/
def cGh_inv : Matrix (Fin 1) (Fin 1) ℚ := !![1/2]

/-- Explicit inverse of `Jbigᵀ Jbig` for the joint matrix built from
`cS, cA, cH, cF` (full-column-rank certificate for the together mode). -/
def cG_inv : Matrix (Fin 1 ⊕ (Fin 1 ⊕ Fin 1)) (Fin 1 ⊕ (Fin 1 ⊕ Fin 1)) ℚ :=
  Matrix.fromBlocks !![3/5] (Matrix.of (fun _ => Sum.elim (fun _ => 0) (fun _ => -1/5)))
    (Matrix.of (fun i _ => Sum.elim (fun _ => (0:ℚ)) (fun _ => -1/5) i))
    (Matrix.fromBlocks !![1/2] 0 0 !![2/5])

/-! ## Theorems -/

/-! ### Shared helper lemmas -/

theorem basisTuples_length (n : ℕ) : (basisTuples n).length = 3 ^ n := by
  induction n with
  | zero => rfl
  | succ n ih =>
      simp only [basisTuples, List.length_flatMap, List.map_cons, List.map_nil,
        List.length_map, ih]
      simp [pow_succ, ih]
      ring

theorem flatMap_map_const_length {α β γ : Type} (L : List α) (M : List β)
    (g : α → β → γ) :
    (L.flatMap (fun a => M.map (g a))).length = L.length * M.length := by
  induction L with
  | nil => simp
  | cons a as ih => simp [ih]; ring

/-- In `Except`, binding an `Except.error` short-circuits. -/
theorem except_bind_error {α β : Type} (e : String)
    (f : α → Except String β) :
    (Except.error e : Except String α) >>= f = Except.error e := rfl

/-! ### C1 — rank-deficient design matrices abort with NameError -/

/-- **C1** (code bug): the claim says a rank-deficient design matrix raises a
non-fatal warning and the run continues to the pseudo-inverse at all three
inversion sites.  In the code, all three sites guard `_warnings.warn(...)`
with `if rank < J.shape[1]`, but the module never imports `warnings` (see
`idtcore_imported_names`, from lines 4-15), so the branch raises `NameError`
and aborts instead of warning.  Witnessed here at `rank = 2 < 3 = cols` for
each of the three sites. -/
theorem C1_rank_deficiency_aborts_with_NameError :
    idtcore_imported_names.contains "_warnings" = false ∧
    rank_check_step "stochastic/affine separate-mode inversion" 2 3 =
      Except.error
        "NameError: name _warnings is not defined [stochastic/affine separate-mode inversion]" ∧
    rank_check_step "hamiltonian separate-mode inversion" 2 3 =
      Except.error
        "NameError: name _warnings is not defined [hamiltonian separate-mode inversion]" ∧
    rank_check_step "together-mode joint inversion" 2 3 =
      Except.error
        "NameError: name _warnings is not defined [together-mode joint inversion]" ∧
    rank_check_step "stochastic/affine separate-mode inversion" 3 3 =
      Except.ok () :=
  ⟨rfl, rfl, rfl, rfl, rfl⟩

/-! ### C3 — affine without stochastic fails fast in both entry points -/

/-- **C3**: for every call in which affine extraction is requested but
stochastic is not, both `idle_tomography_fidpairs` and `do_idle_tomography`
fail immediately with `ValueError`; the error result carries no fiducial
pairs and no stage output (no partial result). -/
theorem C3_affine_without_stochastic_fails :
    ∀ (tile : List FidPair → ℕ → ℕ → List FidPair) (nQubits maxweight : ℕ)
      (include_hamiltonian : Bool) (ham_tmpl : List (List PauliBasis))
      (bp bm : PauliBasis → Int),
      idle_tomography_fidpairs tile nQubits maxweight include_hamiltonian
          false true ham_tmpl bp bm =
        Except.error
          "Cannot include affine sequences without also including stochastic ones!" ∧
      do_idle_tomography_stages include_hamiltonian false true =
        Except.error
          "Cannot extract affine error rates without also extracting stochastic ones!" :=
  fun _ _ _ _ _ _ _ => ⟨rfl, rfl⟩


/-! ### `raisingMap` lemmas -/

theorem except_ok_bind {α β : Type} (a : α) (f : α → Except String β) :
    (Except.ok a : Except String α) >>= f = f a := rfl

theorem raisingMap_error_of_mem {α β : Type} (f : α → Except String β)
    (e : String) (hfe : ∀ a, f a = Except.error e ∨ ∃ b, f a = Except.ok b) :
    ∀ L : List α, (∃ a ∈ L, f a = Except.error e) →
      raisingMap f L = Except.error e := by
  intro L
  induction L with
  | nil => rintro ⟨a, ha, -⟩; cases ha
  | cons a as ih =>
      rintro ⟨x, hx, hxe⟩
      rcases hfe a with ha | ⟨b, hb⟩
      · simp only [raisingMap, ha, except_bind_error]
      · have hrest : ∃ y ∈ as, f y = Except.error e := by
          rcases List.mem_cons.mp hx with rfl | hmem
          · rw [hb] at hxe; cases hxe
          · exact ⟨x, hmem, hxe⟩
        simp only [raisingMap, hb, except_ok_bind, ih hrest, except_bind_error]

theorem raisingMap_eq_map {α β : Type} (f : α → Except String β) (g : α → β) :
    ∀ L : List α, (∀ a ∈ L, f a = Except.ok (g a)) →
      raisingMap f L = Except.ok (L.map g) := by
  intro L
  induction L with
  | nil => intro; rfl
  | cons a as ih =>
      intro h
      have ha := h a (List.mem_cons_self a as)
      have hrest := ih (fun x hx => h x (List.mem_cons_of_mem a hx))
      simp only [raisingMap, ha, except_ok_bind, hrest, List.map_cons]
      rfl

theorem raisingMap_ok_mem {α β : Type} (f : α → Except String β) :
    ∀ (L : List α) (R : List β), raisingMap f L = Except.ok R →
      ∀ r ∈ R, ∃ a ∈ L, f a = Except.ok r := by
  intro L
  induction L with
  | nil =>
      intro R hR r hr
      cases hR
      cases hr
  | cons a as ih =>
      intro R hR r hr
      cases hfa : f a with
      | error e =>
          simp only [raisingMap, hfa, except_bind_error] at hR
          cases hR
      | ok b =>
          simp only [raisingMap, hfa, except_ok_bind] at hR
          cases hrec : raisingMap f as with
          | error e => rw [hrec] at hR; cases hR
          | ok rest =>
              rw [hrec] at hR
              cases hR
              rcases List.mem_cons.mp hr with rfl | hmem
              · exact ⟨a, List.mem_cons_self a as, hfa⟩
              · obtain ⟨x, hx, hfx⟩ := ih rest hrec r hmem
                exact ⟨x, List.mem_cons_of_mem a hx, hfx⟩

/-! ### C5 — stochastic+affine sign-flip patterns and template counts -/

/-- **C5**: with stochastic and affine both requested, the enumerated
sign-flip patterns are exactly `{no-flip, flip}` for maxweight 1 and
`{no-flip, flip-second, flip-first}` (flip-both excluded) for maxweight 2;
every maxweight above 2 fails fast with `NotImplementedError`; one template
pair is built per flip pattern and per basis-letter tuple in
`{X,Y,Z}^maxweight`, so for maxweight 1 exactly `2 * 3 = 6` template pairs
are built before tiling (the count is independent of `nQubits` and of
`include_hamiltonian`, which only affect later tiling and the separate
Hamiltonian template set). -/
theorem C5_flip_patterns_and_template_count :
    sto_flips 1 true = Except.ok [[1], [-1]] ∧
    sto_flips 2 true = Except.ok [[1, 1], [1, -1], [-1, 1]] ∧
    (∀ maxweight : ℕ, 2 < maxweight → sto_flips maxweight true =
      Except.error
        "NotImplementedError: No implementation for affine errors and maxweight > 2!") ∧
    (∀ (maxweight : ℕ) (bp bm : PauliBasis → Int) (flips : List (List Int)),
      sto_flips maxweight true = Except.ok flips →
      ∃ pairs, sto_tmpl_pairs maxweight true bp bm = Except.ok pairs ∧
        pairs.length = flips.length * 3 ^ maxweight) ∧
    (∀ bp bm : PauliBasis → Int,
      ∃ pairs, sto_tmpl_pairs 1 true bp bm = Except.ok pairs ∧
        pairs.length = 6) := by
  refine ⟨rfl, rfl, ?_, ?_, ?_⟩
  · intro maxweight h
    have h1 : maxweight ≠ 1 := by omega
    have h2 : maxweight ≠ 2 := by omega
    simp [sto_flips, h1, h2]
  · intro maxweight bp bm flips h
    refine ⟨flips.flatMap (fun fliptup =>
      (basisTuples maxweight).map (fun basisLets =>
        (⟨basisLets, (fliptup.zip basisLets).map
            (fun fl => fl.1 * bp fl.2)⟩,
         ⟨basisLets, (fliptup.zip basisLets).map
            (fun fl => fl.1 * bm fl.2)⟩))), ?_, ?_⟩
    · unfold sto_tmpl_pairs
      rw [h]
      rfl
    · rw [flatMap_map_const_length, basisTuples_length]
  · intro bp bm
    exact ⟨_, rfl, rfl⟩

/-- Witness for C5: maxweight 3 with affine fails; a concrete preferred-sign
assignment yields exactly 6 template pairs at maxweight 1. -/
theorem C5_witness :
    sto_flips 3 true =
      Except.error
        "NotImplementedError: No implementation for affine errors and maxweight > 2!" ∧
    (∃ pairs, sto_tmpl_pairs 1 true (base_signs true true true)
        (base_signs true true true) = Except.ok pairs ∧ pairs.length = 6) :=
  ⟨C5_flip_patterns_and_template_count.2.2.1 3 (by norm_num),
   C5_flip_patterns_and_template_count.2.2.2.2 _ _⟩

/-! ### C6 — Hamiltonian template pairs -/

theorem prevPauli_ne_nextPauli : ∀ l : PauliBasis, prevPauli l ≠ nextPauli l := by
  intro l
  cases l <;> decide

/-- **C6**: every Hamiltonian template string whose length differs from
`maxweight` makes the template construction fail (assertion); otherwise each
template string yields one pair with prep letters the cyclic predecessors,
meas letters the cyclic successors, and the preferred signs unmodified; in
every generated Hamiltonian template pair the prep and meas basis letters
differ on every qubit. -/
theorem C6_hamiltonian_template_pairs :
    (∀ (maxweight : ℕ) (ham_tmpl : List (List PauliBasis))
       (bp bm : PauliBasis → Int),
      (∃ t ∈ ham_tmpl, t.length ≠ maxweight) →
      ham_tmpl_pairs maxweight ham_tmpl bp bm =
        Except.error "Hamiltonian template strings must have length == maxweight!") ∧
    (∀ (maxweight : ℕ) (ham_tmpl : List (List PauliBasis))
       (bp bm : PauliBasis → Int),
      (∀ t ∈ ham_tmpl, t.length = maxweight) →
      ham_tmpl_pairs maxweight ham_tmpl bp bm = Except.ok (ham_tmpl.map (fun t =>
        ((⟨t.map prevPauli, (t.map prevPauli).map bp⟩ : NQPauliState),
         (⟨t.map nextPauli, (t.map nextPauli).map bm⟩ : NQPauliState))))) ∧
    (∀ (maxweight : ℕ) (ham_tmpl : List (List PauliBasis))
       (bp bm : PauliBasis → Int) (pairs : List FidPair),
      ham_tmpl_pairs maxweight ham_tmpl bp bm = Except.ok pairs →
      ∀ pr ∈ pairs, ∀ i : ℕ, i < pr.1.rep.length →
        pr.1.rep.getD i PauliBasis.X ≠ pr.2.rep.getD i PauliBasis.X) := by
  refine ⟨?_, ?_, ?_⟩
  · intro maxweight ham_tmpl bp bm h
    apply raisingMap_error_of_mem
    · intro a
      by_cases ha : a.length = maxweight
      · exact Or.inr ⟨((⟨a.map prevPauli, (a.map prevPauli).map bp⟩ : NQPauliState),
          (⟨a.map nextPauli, (a.map nextPauli).map bm⟩ : NQPauliState)),
          by simp [ha]⟩
      · exact Or.inl (by simp [ha])
    · obtain ⟨t, ht, hlen⟩ := h
      exact ⟨t, ht, by simp [hlen]⟩
  · intro maxweight ham_tmpl bp bm h
    apply raisingMap_eq_map
    intro t ht
    simp [h t ht]
  · intro maxweight ham_tmpl bp bm pairs hok pr hpr i hi
    obtain ⟨t, ht, hft⟩ := raisingMap_ok_mem _ ham_tmpl pairs hok pr hpr
    by_cases hlen : t.length = maxweight
    · simp only [hlen, if_pos] at hft
      cases hft
      have hil : i < t.length := by simpa using hi
      show (t.map prevPauli).getD i PauliBasis.X ≠ (t.map nextPauli).getD i PauliBasis.X
      rw [List.getD_eq_getElem?_getD, List.getD_eq_getElem?_getD,
        List.getElem?_map, List.getElem?_map, List.getElem?_eq_getElem hil]
      simpa using prevPauli_ne_nextPauli (t.get ⟨i, hil⟩)
    · simp [hlen] at hft

/-- Witness for C6: a bad-length template string fails; a pair of good
templates is mapped to cyclic-shifted prep/meas pairs whose bases differ on
every qubit. -/
theorem C6_witness :
    ham_tmpl_pairs 2 [[PauliBasis.X]] (base_signs true true true)
        (base_signs true true true) =
      Except.error "Hamiltonian template strings must have length == maxweight!" ∧
    ham_tmpl_pairs 1 [[PauliBasis.X], [PauliBasis.Y]] (base_signs true true true)
        (base_signs true true true) =
      Except.ok
        [((⟨[PauliBasis.Z], [1]⟩ : NQPauliState),
          (⟨[PauliBasis.Y], [1]⟩ : NQPauliState)),
         ((⟨[PauliBasis.X], [1]⟩ : NQPauliState),
          (⟨[PauliBasis.Z], [1]⟩ : NQPauliState))] := by
  constructor
  · exact C6_hamiltonian_template_pairs.1 2 [[PauliBasis.X]] _ _
      ⟨[PauliBasis.X], by simp, by simp⟩
  · rw [C6_hamiltonian_template_pairs.2.1 1 [[PauliBasis.X], [PauliBasis.Y]] _ _
      (by intro t ht; fin_cases ht <;> rfl)]
    rfl

/-! ### C4 — `stochastic_outcome` -/

theorem commute_parity_cases (P : PauliBasis) (e : Pauli) :
    commute_parity P e = 1 ∨ commute_parity P e = -1 := by
  unfold commute_parity
  split <;> simp

theorem stochastic_outcome_aux_same :
    ∀ (ps : List PauliBasis) (ss1 ss2 : List Int) (es : List Pauli),
      ss1.length = ps.length → ss2.length = ps.length → es.length = ps.length →
      ∃ out, stochastic_outcome_aux ss1 ps ss2 ps es = some out ∧
        out.length = ps.length ∧
        ∀ i, i < ps.length →
          (out.getD i true = false ↔
            ((commute_parity (ps.getD i PauliBasis.X) (es.getD i Pauli.I) = 1 ∧
              ss1.getD i 0 = ss2.getD i 0) ∨
             (commute_parity (ps.getD i PauliBasis.X) (es.getD i Pauli.I) = -1 ∧
              ss1.getD i 0 ≠ ss2.getD i 0))) := by
  intro ps
  induction ps with
  | nil =>
      intro ss1 ss2 es h1 h2 h3
      have e1 : ss1 = [] := List.length_eq_zero.mp (by simpa using h1)
      have e2 : ss2 = [] := List.length_eq_zero.mp (by simpa using h2)
      have e3 : es = [] := List.length_eq_zero.mp (by simpa using h3)
      subst e1; subst e2; subst e3
      exact ⟨[], rfl, rfl, fun i hi => absurd hi (by simp)⟩
  | cons p ps ih =>
      intro ss1 ss2 es h1 h2 h3
      cases ss1 with
      | nil => simp at h1
      | cons s1 ss1 =>
      cases ss2 with
      | nil => simp at h2
      | cons s2 ss2 =>
      cases es with
      | nil => simp at h3
      | cons e es =>
      simp only [List.length_cons, Nat.add_right_cancel_iff] at h1 h2 h3
      obtain ⟨out, hout, hlen, hbits⟩ := ih ss1 ss2 es h1 h2 h3
      refine ⟨(if commute_parity p e = 1 then decide (s1 ≠ s2)
        else decide (s1 = s2)) :: out, ?_, ?_, ?_⟩
      · simp [stochastic_outcome_aux, stochastic_outcome_bit, hout]
      · simp [hlen]
      · intro i hi
        cases i with
        | zero =>
            simp only [List.getD_cons_zero]
            rcases commute_parity_cases p e with hcp | hcp
            · rw [if_pos hcp]
              simp [hcp]
            · rw [if_neg (by rw [hcp]; norm_num)]
              simp [hcp]
        | succ j =>
            simp only [List.getD_cons_succ]
            exact hbits j (by simpa using hi)

theorem stochastic_outcome_aux_mismatch :
    ∀ (ps1 ps2 : List PauliBasis) (ss1 ss2 : List Int) (es : List Pauli),
      ps1.length = ps2.length → ss1.length = ps1.length →
      ss2.length = ps1.length → es.length = ps1.length → ps1 ≠ ps2 →
      stochastic_outcome_aux ss1 ps1 ss2 ps2 es = none := by
  intro ps1
  induction ps1 with
  | nil =>
      intro ps2 ss1 ss2 es hl _ _ _ hne
      cases ps2 with
      | nil => exact absurd rfl hne
      | cons p2 ps2 => simp at hl
  | cons p1 ps1 ih =>
      intro ps2 ss1 ss2 es hl h1 h2 h3 hne
      cases ps2 with
      | nil => simp at hl
      | cons p2 ps2 =>
      cases ss1 with
      | nil => simp at h1
      | cons s1 ss1 =>
      cases ss2 with
      | nil => simp at h2
      | cons s2 ss2 =>
      cases es with
      | nil => simp at h3
      | cons e es =>
      simp only [List.length_cons, Nat.add_right_cancel_iff] at hl h1 h2 h3
      by_cases hp : p1 = p2
      · subst hp
        have hrest : ps1 ≠ ps2 := fun hc => hne (by rw [hc])
        simp [stochastic_outcome_aux, stochastic_outcome_bit,
          ih ps2 ss1 ss2 es hl h1 h2 h3 hrest]
      · simp [stochastic_outcome_aux, stochastic_outcome_bit, hp]

/-- **C4**: under the precondition that prep and meas have identical basis
letters on every qubit, `stochastic_outcome` returns the concatenation over
qubits of bits where bit `i` is `'0'` iff the shared basis letter commutes
with the error letter and the signs agree, or anticommutes and the signs
differ; a basis mismatch fails the assertion immediately; per qubit, with a
commuting basis and equal signs the bit is `'0'`, flipping exactly one sign
flips it to `'1'`, and flipping both signs restores `'0'`. -/
theorem C4_stochastic_outcome :
    (∀ (prep meas : NQPauliState) (error : NQPauliOp),
      prep.rep = meas.rep →
      prep.signs.length = prep.rep.length →
      meas.signs.length = prep.rep.length →
      error.length = prep.rep.length →
      ∃ out, stochastic_outcome prep error meas = some out ∧
        out.length = prep.rep.length ∧
        ∀ i, i < prep.rep.length →
          (out.getD i true = false ↔
            ((commute_parity (prep.rep.getD i PauliBasis.X)
                (error.getD i Pauli.I) = 1 ∧
              prep.signs.getD i 0 = meas.signs.getD i 0) ∨
             (commute_parity (prep.rep.getD i PauliBasis.X)
                (error.getD i Pauli.I) = -1 ∧
              prep.signs.getD i 0 ≠ meas.signs.getD i 0)))) ∧
    (∀ (prep meas : NQPauliState) (error : NQPauliOp),
      prep.rep.length = meas.rep.length →
      prep.signs.length = prep.rep.length →
      meas.signs.length = prep.rep.length →
      error.length = prep.rep.length →
      prep.rep ≠ meas.rep →
      stochastic_outcome prep error meas = none) ∧
    (∀ (s : Int) (P : PauliBasis) (e : Pauli), commute_parity P e = 1 →
      stochastic_outcome_bit s P s P e = some false) ∧
    (∀ (s t : Int) (P : PauliBasis) (e : Pauli), commute_parity P e = 1 →
      s ≠ t →
      stochastic_outcome_bit s P t P e = some true ∧
      stochastic_outcome_bit t P s P e = some true) ∧
    (∀ (s : Int) (P : PauliBasis) (e : Pauli), commute_parity P e = 1 →
      stochastic_outcome_bit (-s) P (-s) P e = some false) := by
  refine ⟨?_, ?_, ?_, ?_, ?_⟩
  · intro prep meas error hrep h1 h2 h3
    unfold stochastic_outcome
    rw [← hrep]
    exact stochastic_outcome_aux_same prep.rep prep.signs meas.signs error h1 h2 h3
  · intro prep meas error hl h1 h2 h3 hne
    exact stochastic_outcome_aux_mismatch prep.rep meas.rep prep.signs meas.signs
      error hl h1 h2 h3 hne
  · intro s P e h
    simp [stochastic_outcome_bit, h]
  · intro s t P e h hst
    constructor <;> simp [stochastic_outcome_bit, h, hst, Ne.symm hst]
  · intro s P e h
    simp [stochastic_outcome_bit, h]

/-- Witness for C4 at one qubit: prep and meas along `Z` with equal signs and
error `X` (anticommuting) give outcome `'0'`... (the bit-level parts are
exercised with basis `Z` and error `Z`, which commute). -/
theorem C4_witness :
    (∃ out, stochastic_outcome ⟨[PauliBasis.Z], [1]⟩ [Pauli.X]
        ⟨[PauliBasis.Z], [1]⟩ = some out ∧ out.length = 1) ∧
    stochastic_outcome ⟨[PauliBasis.Z], [1]⟩ [Pauli.X]
        ⟨[PauliBasis.X], [1]⟩ = none ∧
    stochastic_outcome_bit 1 PauliBasis.Z 1 PauliBasis.Z Pauli.Z = some false ∧
    stochastic_outcome_bit 1 PauliBasis.Z (-1) PauliBasis.Z Pauli.Z = some true ∧
    stochastic_outcome_bit (-(1 : Int)) PauliBasis.Z (-(1 : Int)) PauliBasis.Z
        Pauli.Z = some false := by
  refine ⟨?_, ?_, ?_, ?_, ?_⟩
  · obtain ⟨out, hout, hlen, -⟩ := C4_stochastic_outcome.1
      ⟨[PauliBasis.Z], [1]⟩ ⟨[PauliBasis.Z], [1]⟩ [Pauli.X] rfl rfl rfl rfl
    exact ⟨out, hout, hlen⟩
  · exact C4_stochastic_outcome.2.1 ⟨[PauliBasis.Z], [1]⟩ ⟨[PauliBasis.X], [1]⟩
      [Pauli.X] rfl rfl rfl rfl (by decide)
  · exact C4_stochastic_outcome.2.2.1 1 PauliBasis.Z Pauli.Z (by decide)
  · exact (C4_stochastic_outcome.2.2.2.1 1 (-1) PauliBasis.Z Pauli.Z (by decide)
      (by decide)).1
  · exact C4_stochastic_outcome.2.2.2.2 1 PauliBasis.Z Pauli.Z (by decide)

/-! ### C9 — `affine_jac_element` -/

theorem ite_mul_ite_int (A B : Prop) [Decidable A] [Decidable B] :
    ((if A then 1 else 0 : Int) * (if B then 1 else 0)) =
      (if A ∧ B then 1 else 0) := by
  by_cases hA : A <;> by_cases hB : B <;> simp [hA, hB]

theorem affine_jac_aux_all_I :
    ∀ (ps : List PauliBasis) (ss1 ss2 : List Int) (bs : List Bool),
      ss1.length = ps.length → ss2.length = ps.length → bs.length = ps.length →
      affine_jac_aux ss1 ps ss2 ps (List.replicate ps.length Pauli.I) bs =
        some (if ∀ i, i < ps.length →
            ss1.getD i 0 * ss2.getD i 0 *
              (if bs.getD i true = false then 1 else -1) = 1
          then 1 else 0) := by
  intro ps
  induction ps with
  | nil =>
      intro ss1 ss2 bs h1 h2 h3
      have e1 : ss1 = [] := List.length_eq_zero.mp (by simpa using h1)
      have e2 : ss2 = [] := List.length_eq_zero.mp (by simpa using h2)
      have e3 : bs = [] := List.length_eq_zero.mp (by simpa using h3)
      subst e1; subst e2; subst e3
      simp [affine_jac_aux]
  | cons p ps ih =>
      intro ss1 ss2 bs h1 h2 h3
      cases ss1 with
      | nil => simp at h1
      | cons s1 ss1 =>
      cases ss2 with
      | nil => simp at h2
      | cons s2 ss2 =>
      cases bs with
      | nil => simp at h3
      | cons b bs =>
      simp only [List.length_cons, Nat.add_right_cancel_iff] at h1 h2 h3
      have hsplit : (∀ i, i < ps.length + 1 →
          (s1 :: ss1).getD i 0 * (s2 :: ss2).getD i 0 *
            (if (b :: bs).getD i true = false then 1 else -1) = 1) ↔
          (s1 * s2 * (if b = false then 1 else -1) = 1 ∧
           ∀ i, i < ps.length →
             ss1.getD i 0 * ss2.getD i 0 *
               (if bs.getD i true = false then 1 else -1) = 1) := by
        constructor
        · intro h
          refine ⟨by simpa using h 0 (by omega), fun i hi => ?_⟩
          simpa using h (i + 1) (by omega)
        · rintro ⟨h0, hs⟩ i hi
          cases i with
          | zero => simpa using h0
          | succ j =>
              simp only [List.getD_cons_succ]
              exact hs j (by omega)
      rw [List.length_cons, List.replicate_succ]
      show (do
        let v ← affhelper s1 p Pauli.I s2 p b
        let rest ← affine_jac_aux ss1 ps ss2 ps
          (List.replicate ps.length Pauli.I) bs
        pure (v * rest)) = _
      rw [ih ss1 ss2 bs h1 h2 h3]
      have haff : affhelper s1 p Pauli.I s2 p b =
          some (if s1 * s2 * (if b = false then 1 else -1) = 1 then 1 else 0) := by
        simp [affhelper]
      rw [haff]
      exact congrArg some ((ite_mul_ite_int _ _).trans
        (if_congr hsplit.symm rfl rfl))

/-- **C9**: `affine_jac_element` is the product over qubits of a per-qubit
helper whose value lies in `{-1, 0, +1}`: with error letter `'I'` the helper is
1 if `prepSign*measSign*outsign = 1` (outsign `+1` for bit `'0'`, `-1` for
`'1'`) and 0 otherwise; with an error letter differing from the shared basis
letter it is 0; with the error letter equal to the shared basis letter it is
`measSign` for bit `'0'` and `-measSign` for bit `'1'`; a prep/meas basis
mismatch fails the assertion.  With error `'I'` on all qubits the function
returns 1 iff `prepSign*measSign*outsign = 1` on every qubit simultaneously,
else 0. -/
theorem C9_affine_jac_element :
    (∀ (s1 s2 : Int) (P : PauliBasis) (e : Pauli) (b : Bool),
      s2 = 1 ∨ s2 = -1 →
      ∃ v, affhelper s1 P e s2 P b = some v ∧ (v = -1 ∨ v = 0 ∨ v = 1)) ∧
    (∀ (s1 s2 : Int) (P : PauliBasis) (b : Bool),
      affhelper s1 P Pauli.I s2 P b =
        some (if s1 * s2 * (if b = false then 1 else -1) = 1 then 1 else 0)) ∧
    (∀ (s1 s2 : Int) (P : PauliBasis) (e : Pauli) (b : Bool),
      e ≠ Pauli.I → e ≠ P.toPauli → affhelper s1 P e s2 P b = some 0) ∧
    (∀ (s1 s2 : Int) (P : PauliBasis) (b : Bool),
      affhelper s1 P P.toPauli s2 P b =
        some (if b = false then s2 else -s2)) ∧
    (∀ (s1 s2 : Int) (P1 P2 : PauliBasis) (e : Pauli) (b : Bool),
      P1 ≠ P2 → affhelper s1 P1 e s2 P2 b = none) ∧
    (∀ (prep meas : NQPauliState) (outcome : NQOutcome),
      prep.rep = meas.rep →
      prep.signs.length = prep.rep.length →
      meas.signs.length = prep.rep.length →
      outcome.length = prep.rep.length →
      affine_jac_element prep (List.replicate prep.rep.length Pauli.I) meas
          outcome =
        some (if ∀ i, i < prep.rep.length →
            prep.signs.getD i 0 * meas.signs.getD i 0 *
              (if outcome.getD i true = false then 1 else -1) = 1
          then 1 else 0)) := by
  have htoPauli_ne : ∀ P : PauliBasis, P.toPauli ≠ Pauli.I := by
    intro P
    cases P <;> decide
  refine ⟨?_, ?_, ?_, ?_, ?_, ?_⟩
  · intro s1 s2 P e b hs2
    by_cases he : e = Pauli.I
    · subst he
      refine ⟨if s1 * s2 * (if b = false then 1 else -1) = 1 then 1 else 0,
        by simp [affhelper], ?_⟩
      split_ifs <;> simp
    · by_cases hp : P.toPauli = e
      · cases b with
        | false =>
            refine ⟨s2, by simp [affhelper, he, hp], ?_⟩
            rcases hs2 with rfl | rfl
            · exact Or.inr (Or.inr rfl)
            · exact Or.inl rfl
        | true =>
            refine ⟨s2 * (-1), by simp [affhelper, he, hp], ?_⟩
            rcases hs2 with rfl | rfl
            · exact Or.inl (by norm_num)
            · exact Or.inr (Or.inr (by norm_num))
      · exact ⟨0, by simp [affhelper, he, hp], Or.inr (Or.inl rfl)⟩
  · intro s1 s2 P b
    simp [affhelper]
  · intro s1 s2 P e b he hp
    have hp2 : P.toPauli ≠ e := fun h => hp h.symm
    simp [affhelper, he, hp2]
  · intro s1 s2 P b
    cases b with
    | false => simp [affhelper, htoPauli_ne P]
    | true => simp [affhelper, htoPauli_ne P]
  · intro s1 s2 P1 P2 e b hne
    simp [affhelper, hne]
  · intro prep meas outcome hrep h1 h2 h3
    unfold affine_jac_element
    rw [← hrep]
    exact affine_jac_aux_all_I prep.rep prep.signs meas.signs outcome h1 h2 h3

/-- Witness for C9 at one qubit: error `'I'` with matching signs gives 1,
error equal to the basis gives the measurement sign, an orthogonal error
gives 0, and a basis mismatch fails the assertion. -/
theorem C9_witness :
    (∃ v, affhelper 1 PauliBasis.Z Pauli.X (-1) PauliBasis.Z true = some v ∧
      (v = -1 ∨ v = 0 ∨ v = 1)) ∧
    affhelper 1 PauliBasis.Z Pauli.I 1 PauliBasis.Z false = some 1 ∧
    affhelper 1 PauliBasis.Z Pauli.X (-1) PauliBasis.Z false = some 0 ∧
    affhelper 1 PauliBasis.Z Pauli.Z (-1) PauliBasis.Z false = some (-1) ∧
    affhelper 1 PauliBasis.Z Pauli.Z 1 PauliBasis.X false = none ∧
    affine_jac_element ⟨[PauliBasis.Z], [1]⟩ [Pauli.I] ⟨[PauliBasis.Z], [1]⟩
        [false] = some 1 := by
  refine ⟨?_, ?_, ?_, ?_, ?_, ?_⟩
  · exact C9_affine_jac_element.1 1 (-1) PauliBasis.Z Pauli.X true
      (Or.inr rfl)
  · have := C9_affine_jac_element.2.1 1 1 PauliBasis.Z false
    simpa using this
  · exact C9_affine_jac_element.2.2.1 1 (-1) PauliBasis.Z Pauli.X false
      (by decide) (by decide)
  · have := C9_affine_jac_element.2.2.2.1 1 (-1) PauliBasis.Z false
    simpa using this
  · exact C9_affine_jac_element.2.2.2.2.1 1 1 PauliBasis.Z PauliBasis.X Pauli.Z
      false (by decide)
  · have := C9_affine_jac_element.2.2.2.2.2 ⟨[PauliBasis.Z], [1]⟩
      ⟨[PauliBasis.Z], [1]⟩ [false] rfl rfl rfl rfl
    simpa using this

/-! ### C7 — fit-order dispatch and quadratic slope -/

/-- **C7**: in both `get_obs_stochastic_err_rate` and
`get_obs_hamiltonian_err_rate`, fit order 1 returns the leading (slope)
coefficient; fit order 2 returns the vertex-formula value
`-sign(c2) * sqrt(c1^2 - 4*c2*c0)` when the discriminant is nonnegative and
falls back to the linear coefficient `c1` when it is negative; every fit
order above 2 fails fast with `NotImplementedError`. -/
theorem C7_fit_order_slope :
    (∀ c1 c0 : ℝ,
      sto_slope_from_fit 1 [c1, c0] = Except.ok c1 ∧
      ham_slope_from_fit 1 [c1, c0] = Except.ok c1) ∧
    (∀ c2 c1 c0 : ℝ, c1 ^ 2 - 4 * c2 * c0 ≥ 0 →
      sto_slope_from_fit 2 [c2, c1, c0] =
        Except.ok (-(Real.sign c2) * Real.sqrt (c1 ^ 2 - 4 * c2 * c0)) ∧
      ham_slope_from_fit 2 [c2, c1, c0] =
        Except.ok (-(Real.sign c2) * Real.sqrt (c1 ^ 2 - 4 * c2 * c0))) ∧
    (∀ c2 c1 c0 : ℝ, c1 ^ 2 - 4 * c2 * c0 < 0 →
      sto_slope_from_fit 2 [c2, c1, c0] = Except.ok c1 ∧
      ham_slope_from_fit 2 [c2, c1, c0] = Except.ok c1) ∧
    (∀ (fitOrder : ℕ) (coeffs : List ℝ), 2 < fitOrder →
      sto_slope_from_fit fitOrder coeffs =
        Except.error "NotImplementedError: Only fitOrder <= 2 are supported!" ∧
      ham_slope_from_fit fitOrder coeffs =
        Except.error "NotImplementedError: Only fitOrder <= 2 are supported!") := by
  refine ⟨?_, ?_, ?_, ?_⟩
  · intro c1 c0
    constructor <;> rfl
  · intro c2 c1 c0 h
    have hc : c1 ^ 2 - 4 * c0 * c2 = c1 ^ 2 - 4 * c2 * c0 := by ring
    have hred1 : sto_slope_from_fit 2 [c2, c1, c0] =
        Except.ok (if c1 ^ 2 - 4 * c0 * c2 ≥ 0 then
          -(Real.sign c2) * Real.sqrt (c1 ^ 2 - 4 * c0 * c2) else c1) := rfl
    have hred2 : ham_slope_from_fit 2 [c2, c1, c0] =
        Except.ok (if c1 ^ 2 - 4 * c0 * c2 ≥ 0 then
          -(Real.sign c2) * Real.sqrt (c1 ^ 2 - 4 * c0 * c2) else c1) := rfl
    constructor
    · rw [hred1, hc, if_pos h]
    · rw [hred2, hc, if_pos h]
  · intro c2 c1 c0 h
    have hc : c1 ^ 2 - 4 * c0 * c2 = c1 ^ 2 - 4 * c2 * c0 := by ring
    have hred1 : sto_slope_from_fit 2 [c2, c1, c0] =
        Except.ok (if c1 ^ 2 - 4 * c0 * c2 ≥ 0 then
          -(Real.sign c2) * Real.sqrt (c1 ^ 2 - 4 * c0 * c2) else c1) := rfl
    have hred2 : ham_slope_from_fit 2 [c2, c1, c0] =
        Except.ok (if c1 ^ 2 - 4 * c0 * c2 ≥ 0 then
          -(Real.sign c2) * Real.sqrt (c1 ^ 2 - 4 * c0 * c2) else c1) := rfl
    constructor
    · rw [hred1, hc, if_neg (not_le.mpr h)]
    · rw [hred2, hc, if_neg (not_le.mpr h)]
  · intro fitOrder coeffs h
    have h1 : fitOrder ≠ 1 := by omega
    have h2 : fitOrder ≠ 2 := by omega
    constructor <;>
      · simp only [sto_slope_from_fit, ham_slope_from_fit]
        rw [if_neg h1, if_neg h2]

/-- Witness for C7: concrete fits at each order, including a zero and a
negative discriminant. -/
theorem C7_witness :
    sto_slope_from_fit 1 [(5 : ℝ), 7] = Except.ok 5 ∧
    sto_slope_from_fit 2 [(0 : ℝ), 0, 1] =
      Except.ok (-(Real.sign 0) * Real.sqrt ((0 : ℝ) ^ 2 - 4 * 0 * 1)) ∧
    ham_slope_from_fit 2 [(1 : ℝ), 0, 1] = Except.ok 0 ∧
    ham_slope_from_fit 3 [(1 : ℝ), 2, 3] =
      Except.error "NotImplementedError: Only fitOrder <= 2 are supported!" := by
  refine ⟨?_, ?_, ?_, ?_⟩
  · exact (C7_fit_order_slope.1 5 7).1
  · exact (C7_fit_order_slope.2.1 0 0 1 (by norm_num)).1
  · exact (C7_fit_order_slope.2.2.1 1 0 1 (by norm_num)).2
  · exact (C7_fit_order_slope.2.2.2 3 [1, 2, 3] (by norm_num)).2

/-! ### C10 — weight dispatch in `get_obs_hamiltonian_err_rate` -/

theorem obs_indices_from_length (o : NQPauliOp) :
    ∀ k, (obs_indices_from k o).length =
      (o.filter (fun l => l ≠ Pauli.I)).length := by
  induction o with
  | nil => intro k; rfl
  | cons l ls ih =>
      intro k
      by_cases hl : l = Pauli.I
      · simp [obs_indices_from, List.filter, hl, ih]
      · simp [obs_indices_from, List.filter, hl, ih]

theorem obs_indices_length (o : NQPauliOp) :
    (obs_indices o).length = (o.filter (fun l => l ≠ Pauli.I)).length :=
  obs_indices_from_length o 0

/-- `unsigned_exptn_and_weight` errors whenever the observed-index list has
length other than 1 or 2. -/
theorem unsigned_exptn_bad_weight (counts : List (NQOutcome × ℕ)) (total : ℕ)
    (inds : List ℕ) (h1 : inds.length ≠ 1) (h2 : inds.length ≠ 2) :
    unsigned_exptn_and_weight counts total inds =
      Except.error
        "NotImplementedError: Expectation values of weight > 2 observables are not implemented!" := by
  match inds with
  | [] => rfl
  | [i] => exact absurd rfl h1
  | [i, j] => exact absurd rfl h2
  | i :: j :: k :: rest => rfl

/-- **C10**: `get_obs_hamiltonian_err_rate` raises `NotImplementedError` for
every observable whose number of non-`'I'` letters differs from 1 and from 2
— not only for weight above 2: in particular the all-identity (weight-0)
observable is rejected (provided the length sweep is nonempty, so the
expectation computation is reached at least once). -/
theorem C10_hamiltonian_weight_dispatch :
    ∀ (rows : List (List (NQOutcome × ℕ) × ℕ)) (pauli_meas : NQPauliState)
      (observable : NQPauliOp),
      (observable.filter (fun l => l ≠ Pauli.I)).length ≠ 1 →
      (observable.filter (fun l => l ≠ Pauli.I)).length ≠ 2 →
      rows ≠ [] →
      ham_data_to_fit rows pauli_meas observable =
        Except.error
          "NotImplementedError: Expectation values of weight > 2 observables are not implemented!" := by
  intro rows pauli_meas observable h1 h2 hne
  cases rows with
  | nil => exact absurd rfl hne
  | cons r rs =>
      have hi1 : (obs_indices observable).length ≠ 1 := by
        rw [obs_indices_length]; exact h1
      have hi2 : (obs_indices observable).length ≠ 2 := by
        rw [obs_indices_length]; exact h2
      unfold ham_data_to_fit
      simp only [raisingMap,
        unsigned_exptn_bad_weight r.1 r.2 (obs_indices observable) hi1 hi2]
      rfl

/-- Witness for C10: the weight-0 (all-identity) observable on one qubit is
rejected even though its weight is not greater than 2. -/
theorem C10_witness :
    ham_data_to_fit [([([false], 5)], 5)] ⟨[PauliBasis.Z], [1]⟩ [Pauli.I] =
      Except.error
        "NotImplementedError: Expectation values of weight > 2 observables are not implemented!" :=
  C10_hamiltonian_weight_dispatch [([([false], 5)], 5)] ⟨[PauliBasis.Z], [1]⟩
    [Pauli.I] (by decide) (by decide) (by simp)

/-! ### C8 — stochastic-stage row layout and the half split -/

theorem assertingMap_some_spec {α β : Type} (f : α → Option β) (dA : α)
    (dB : β) :
    ∀ (L : List α) (R : List β), assertingMap f L = some R →
      R.length = L.length ∧
      ∀ i, i < L.length → some (R.getD i dB) = f (L.getD i dA) := by
  intro L
  induction L with
  | nil =>
      intro R hR
      cases hR
      exact ⟨rfl, fun i hi => absurd hi (by simp)⟩
  | cons a as ih =>
      intro R hR
      cases hfa : f a with
      | none =>
          simp only [assertingMap, hfa] at hR
          exact Option.noConfusion
            (show (none : Option (List β)) = some R from hR)
      | some b =>
          simp only [assertingMap, hfa, Option.some_bind] at hR
          cases hrec : assertingMap f as with
          | none => rw [hrec] at hR; cases hR
          | some rest =>
              rw [hrec] at hR
              cases hR
              obtain ⟨hlen, hidx⟩ := ih rest hrec
              refine ⟨by simp [hlen], ?_⟩
              intro i hi
              cases i with
              | zero => simp [hfa]
              | succ j =>
                  simp only [List.getD_cons_succ]
                  exact hidx j (by simpa using hi)

/-- **C8**: with stochastic and affine both requested, every stochastic-stage
Jacobian row is the stochastic elements for all enumerated errors followed by
the affine elements for the same errors in the same enumeration order; and
the combined intrinsic-rate vector (whose length equals the number of
columns, `2 * len(errors)`) is split exactly in half, the first half at the
stochastic column block and the second half at the affine column block. -/
theorem C8_row_layout_and_half_split :
    (∀ (errors : List NQPauliOp) (prep meas : NQPauliState) (out : NQOutcome)
       (row : List Int),
      sto_stage_Jrow errors true prep meas out = some row →
      ∃ sto aff, row = sto ++ aff ∧
        sto.length = errors.length ∧ aff.length = errors.length ∧
        ∀ i, i < errors.length →
          some (sto.getD i 0) =
            stochastic_jac_element prep (errors.getD i []) meas out ∧
          some (aff.getD i 0) =
            affine_jac_element prep (errors.getD i []) meas out) ∧
    (∀ (v : List ℚ) (nerr : ℕ), v.length = 2 * nerr →
      split_sto_aff v = (v.take nerr, v.drop nerr) ∧
      (v.take nerr).length = nerr ∧ (v.drop nerr).length = nerr ∧
      v.take nerr ++ v.drop nerr = v) := by
  constructor
  · intro errors prep meas out row hrow
    cases hsto : assertingMap
        (fun err => stochastic_jac_element prep err meas out) errors with
    | none =>
        simp only [sto_stage_Jrow, hsto] at hrow
        exact Option.noConfusion
          (show (none : Option (List Int)) = some row from hrow)
    | some sto =>
        cases haff : assertingMap
            (fun err => affine_jac_element prep err meas out) errors with
        | none =>
            simp only [sto_stage_Jrow, hsto, haff] at hrow
            exact Option.noConfusion
              (show (none : Option (List Int)) = some row from hrow)
        | some aff =>
            simp only [sto_stage_Jrow, hsto, haff] at hrow
            have hrow2 : some (sto ++ aff) = some row := hrow
            cases hrow2
            obtain ⟨hslen, hsidx⟩ := assertingMap_some_spec _ [] 0 errors sto hsto
            obtain ⟨halen, haidx⟩ := assertingMap_some_spec _ [] 0 errors aff haff
            exact ⟨sto, aff, rfl, hslen, halen,
              fun i hi => ⟨hsidx i hi, haidx i hi⟩⟩
  · intro v nerr hv
    have hhalf : v.length / 2 = nerr := by omega
    refine ⟨by rw [split_sto_aff, hhalf], ?_, ?_, List.take_append_drop nerr v⟩
    · rw [List.length_take]
      omega
    · rw [List.length_drop]
      omega

/-- Witness for C8: one error (`X`) on one qubit, prep/meas along `Z` with
positive signs, outcome `'0'`: the row is the stochastic element followed by
the affine element, and a length-2 vector splits into its two halves. -/
theorem C8_witness :
    (∃ sto aff, ([0, 0] : List Int) = sto ++ aff ∧
      sto.length = 1 ∧ aff.length = 1 ∧
      ∀ i, i < 1 →
        some (sto.getD i 0) =
          stochastic_jac_element ⟨[PauliBasis.Z], [1]⟩
            ([[Pauli.X]].getD i []) ⟨[PauliBasis.Z], [1]⟩ [false] ∧
        some (aff.getD i 0) =
          affine_jac_element ⟨[PauliBasis.Z], [1]⟩
            ([[Pauli.X]].getD i []) ⟨[PauliBasis.Z], [1]⟩ [false]) ∧
    split_sto_aff [(3 : ℚ), 7] = ([3], [7]) := by
  constructor
  · obtain ⟨sto, aff, hconc, h1, h2, h3⟩ :=
      C8_row_layout_and_half_split.1 [[Pauli.X]] ⟨[PauliBasis.Z], [1]⟩
        ⟨[PauliBasis.Z], [1]⟩ [false] [0, 0] (by decide)
    exact ⟨sto, aff, hconc, h1, h2, h3⟩
  · have := (C8_row_layout_and_half_split.2 [(3 : ℚ), 7] 1 (by simp)).1
    simpa using this

/-! ### C2 — jacobian modes "separate" vs "together" -/

theorem matInv_eq_inv {n : Type} [Fintype n] [DecidableEq n]
    (M : Matrix n n ℚ) : matInv M = M⁻¹ := by
  rw [matInv, Matrix.inv_def, Ring.inverse_eq_inv]

theorem matInv_fromBlocks_diag {n m : Type} [Fintype n] [Fintype m]
    [DecidableEq n] [DecidableEq m] (M : Matrix n n ℚ) (N : Matrix m m ℚ)
    (hM : IsUnit M.det) (hN : IsUnit N.det) :
    matInv (Matrix.fromBlocks M 0 0 N) =
      Matrix.fromBlocks (matInv M) 0 0 (matInv N) := by
  rw [matInv_eq_inv, matInv_eq_inv, matInv_eq_inv]
  apply Matrix.inv_eq_right_inv
  rw [Matrix.fromBlocks_multiply]
  simp [Matrix.mul_nonsing_inv M hM, Matrix.mul_nonsing_inv N hN,
    Matrix.fromBlocks_one]

/-- **C2 (amended)**: with hamiltonian and stochastic extraction requested and
affine not requested, and both design matrices of full column rank, the
"separate" and "together" jacobian modes produce exactly equal
(hamiltonian, stochastic) intrinsic-rate pairs: the joint matrix is block
diagonal, so its pseudo-inverse acts blockwise. -/
theorem C2_amended_separate_eq_together_no_affine {r1 r2 n : Type}
    [Fintype r1] [Fintype r2] [Fintype n] [DecidableEq n]
    (S : Matrix r1 n ℚ) (H : Matrix r2 n ℚ) (b1 : r1 → ℚ) (b2 : r2 → ℚ)
    (hS : IsUnit (Sᵀ * S).det) (hH : IsUnit (Hᵀ * H).det) :
    together_mode_rates_no_affine S H b1 b2 =
      separate_mode_rates_no_affine S H b1 b2 := by
  unfold together_mode_rates_no_affine separate_mode_rates_no_affine
    together_Jbig_no_affine pinv
  have hT : (Matrix.fromBlocks (0 : Matrix r1 n ℚ) S H
      (0 : Matrix r2 n ℚ))ᵀ = Matrix.fromBlocks 0 Hᵀ Sᵀ 0 := by
    rw [Matrix.fromBlocks_transpose, Matrix.transpose_zero,
      Matrix.transpose_zero]
  rw [hT, Matrix.fromBlocks_multiply]
  simp only [Matrix.zero_mul, Matrix.mul_zero, add_zero, zero_add]
  rw [matInv_fromBlocks_diag _ _ hH hS, Matrix.fromBlocks_multiply]
  simp only [Matrix.zero_mul, Matrix.mul_zero, add_zero, zero_add]
  rw [Matrix.fromBlocks_mulVec]
  simp only [Sum.elim_comp_inl, Sum.elim_comp_inr, Matrix.zero_mulVec,
    add_zero, zero_add]

/-- Witness for the amended C2 claim at a concrete full-column-rank pair of
design matrices. -/
theorem C2_amended_witness :
    together_mode_rates_no_affine cS cH cb1 cb2 =
      separate_mode_rates_no_affine cS cH cb1 cb2 := by
  have hdS : (cSᵀ * cS).det = 2 := by
    rw [Matrix.det_fin_one]
    simp [Matrix.mul_apply, Fin.sum_univ_two, cS, Matrix.transpose_apply,
      Matrix.vecHead, Matrix.vecTail]
    norm_num
  have hdH : (cHᵀ * cH).det = 2 := by
    rw [Matrix.det_fin_one]
    simp [Matrix.mul_apply, Fin.sum_univ_two, cH, Matrix.transpose_apply,
      Matrix.vecHead, Matrix.vecTail]
    norm_num
  exact C2_amended_separate_eq_together_no_affine cS cH cb1 cb2
    (by rw [hdS]; norm_num) (by rw [hdH]; norm_num)

/-- **C2 (counterexample)**: a concrete instance — one intrinsic-rate column
per error class and two rows per stage, with every assembled design matrix of
full column rank (explicit Gram-inverse certificates) — on which jacobian
modes "separate" and "together" return different intrinsic rates: separate
gives (hamiltonian, stochastic, affine) = (1/4, 1/2, 1/2) while together
gives (1/5, 1/2, 3/5).  The two modes solve different least-squares problems
when affine extraction is requested and the observed rates are not exactly
consistent, so the claimed equality fails. -/
theorem C2_counterexample_modes_disagree :
    (((hstack cS cA)ᵀ * hstack cS cA) * cGsa_inv = 1) ∧
    ((cHᵀ * cH) * cGh_inv = 1) ∧
    (((together_Jbig cS cA cH cF)ᵀ * together_Jbig cS cA cH cF) * cG_inv
      = 1) ∧
    separate_mode_rates cS cA cH cF cb1 cb2 =
      (fun _ => 1/4, fun _ => 1/2, fun _ => 1/2) ∧
    together_mode_rates cS cA cH cF cb1 cb2 =
      (fun _ => 1/5, fun _ => 1/2, fun _ => 3/5) ∧
    separate_mode_rates cS cA cH cF cb1 cb2 ≠
      together_mode_rates cS cA cH cF cb1 cb2 := by
  have hG1 : ((hstack cS cA)ᵀ * hstack cS cA) * cGsa_inv = 1 := by
    ext i j
    rcases i with i | i <;> rcases j with j | j <;> fin_cases i <;>
      fin_cases j <;>
      · simp [Matrix.mul_apply, Fintype.sum_sum_type, Fin.sum_univ_two,
          Fin.sum_univ_one, hstack, cS, cA, cGsa_inv, Matrix.fromBlocks,
          Matrix.of_apply, Matrix.transpose_apply, Matrix.one_apply,
          Matrix.vecHead, Matrix.vecTail]
        all_goals norm_num
  have hG2 : (cHᵀ * cH) * cGh_inv = 1 := by
    ext i j
    fin_cases i <;> fin_cases j <;>
      · simp [Matrix.mul_apply, Fin.sum_univ_two, Fin.sum_univ_one, cH,
          cGh_inv, Matrix.transpose_apply, Matrix.one_apply, Matrix.vecHead,
          Matrix.vecTail]
        all_goals norm_num
  have hG3 : ((together_Jbig cS cA cH cF)ᵀ * together_Jbig cS cA cH cF) *
      cG_inv = 1 := by
    ext i j
    rcases i with i | i | i <;> rcases j with j | j | j <;> fin_cases i <;>
      fin_cases j <;>
      · simp [Matrix.mul_apply, Fintype.sum_sum_type, Fin.sum_univ_two,
          Fin.sum_univ_one, together_Jbig, hstack, cS, cA, cH, cF, cG_inv,
          Matrix.fromBlocks, Matrix.of_apply, Matrix.transpose_apply,
          Matrix.one_apply, Matrix.vecHead, Matrix.vecTail]
        all_goals norm_num
  have hpinv1 : pinv (hstack cS cA) = cGsa_inv * (hstack cS cA)ᵀ := by
    rw [pinv, matInv_eq_inv, Matrix.inv_eq_right_inv hG1]
  have hpinv2 : pinv cH = cGh_inv * cHᵀ := by
    rw [pinv, matInv_eq_inv, Matrix.inv_eq_right_inv hG2]
  have hpinv3 : pinv (together_Jbig cS cA cH cF) =
      cG_inv * (together_Jbig cS cA cH cF)ᵀ := by
    rw [pinv, matInv_eq_inv, Matrix.inv_eq_right_inv hG3]
  have hsa : separate_sto_aff cS cA cb1 = (fun _ => 1/2, fun _ => 1/2) := by
    unfold separate_sto_aff
    rw [hpinv1]
    refine Prod.ext ?_ ?_ <;> funext j <;> fin_cases j <;>
      · simp [Matrix.mulVec, Matrix.mul_apply, Matrix.dotProduct,
          Fintype.sum_sum_type, Fin.sum_univ_two, Fin.sum_univ_one, hstack,
          cS, cA, cGsa_inv, cb1, Matrix.fromBlocks, Matrix.of_apply,
          Matrix.transpose_apply, Matrix.vecHead, Matrix.vecTail]
        all_goals norm_num
  have hham : separate_ham cH cF cb2 (fun _ => 1/2) = fun _ => 1/4 := by
    unfold separate_ham
    rw [hpinv2]
    funext j
    fin_cases j
    simp [Matrix.mulVec, Matrix.mul_apply, Matrix.dotProduct,
      Fin.sum_univ_two, Fin.sum_univ_one, cH, cF, cGh_inv, cb2,
      Matrix.transpose_apply, Matrix.vecHead, Matrix.vecTail, Pi.sub_apply]
    norm_num
  have hsep : separate_mode_rates cS cA cH cF cb1 cb2 =
      (fun _ => 1/4, fun _ => 1/2, fun _ => 1/2) := by
    unfold separate_mode_rates
    rw [hsa]
    exact Prod.ext (by exact hham) rfl
  have htog : together_mode_rates cS cA cH cF cb1 cb2 =
      (fun _ => 1/5, fun _ => 1/2, fun _ => 3/5) := by
    unfold together_mode_rates
    rw [hpinv3]
    refine Prod.ext ?_ (Prod.ext ?_ ?_) <;> funext j <;> fin_cases j <;>
      · simp [Matrix.mulVec, Matrix.mul_apply, Matrix.dotProduct,
          Fintype.sum_sum_type, Fin.sum_univ_two, Fin.sum_univ_one,
          together_Jbig, hstack, cS, cA, cH, cF, cG_inv, cb1, cb2,
          Matrix.fromBlocks, Matrix.of_apply, Matrix.transpose_apply,
          Matrix.vecHead, Matrix.vecTail]
        all_goals norm_num
  refine ⟨hG1, hG2, hG3, hsep, htog, ?_⟩
  rw [hsep, htog]
  intro hcontra
  have h3 := congrFun (congrArg
    (fun t : (Fin 1 → ℚ) × (Fin 1 → ℚ) × (Fin 1 → ℚ) => t.2.2) hcontra) 0
  norm_num at h3
